import Mathlib

/-!
# Stellaroot dashboard: metadata codec and resource stores

A shallow embedding of `services/dashboard/static/js/dashboard.js`,
`players.js` and `servers.js`.  Strings are Lean strings, a plain JavaScript
object is the list of its own enumerable properties in enumeration order, and
an `async` method is split at its first `await` into the part that runs inside
the call and the part that runs once the request has settled.
-/

namespace Stellaroot

/-! ## Strings -/

/-- The code points `String.prototype.trim` strips: ECMAScript WhiteSpace
(TAB, VT, FF, SP, NBSP, ZWNBSP and the Unicode space separators) together with
the LineTerminator code points (LF, CR, LS, PS). -/
def isTrimChar (c : Char) : Bool :=
  let n := c.toNat
  n == 0x09 || n == 0x0A || n == 0x0B || n == 0x0C || n == 0x0D || n == 0x20 ||
  n == 0xA0 || n == 0x1680 || (0x2000 ≤ n && n ≤ 0x200A) || n == 0x2028 ||
  n == 0x2029 || n == 0x202F || n == 0x205F || n == 0x3000 || n == 0xFEFF

/-- The built-in `String.prototype.trim`: strips white space from both ends. -/
def trim (s : String) : String :=
  ⟨(s.data.dropWhile isTrimChar).rdropWhile isTrimChar⟩

/-- Truthiness of a string value: every string but the empty one. -/
def truthy (s : String) : Bool := s != ""

/-! ## Plain objects -/

/-- One `{key, value}` row of an edit buffer (two inputs of a
`.key-value-pair` element in `players.js`). -/
structure Pair where
  key : String
  value : String
deriving DecidableEq, Repr

/-- The own enumerable string-valued properties of a plain object, in the
order `Object.entries` lists them. -/
abbrev JSObject := List (String × String)

/-- Reads a canonical array index: the decimal numeral without leading zeros
of a number below `2^32 - 1`.  Such keys are enumerated first, in ascending
numeric order. -/
def arrayIndex (k : String) : Option Nat :=
  let ds := k.data
  let n := ds.foldl (fun a c => 10 * a + (c.toNat - 48)) 0
  if ds ≠ [] ∧ ds.all Char.isDigit ∧ (ds = ['0'] ∨ ds.head? ≠ some '0') ∧ n < 2 ^ 32 - 1
  then some n else none

/-- Own-property lookup. -/
def JSObject.get (o : JSObject) (k : String) : Option String :=
  (o.find? (fun e => e.1 == k)).map Prod.snd

/-- Own-property test. -/
def JSObject.has (o : JSObject) (k : String) : Bool :=
  o.any (fun e => e.1 == k)

/-- Overwrites the value of the property named `k`, keeping its position. -/
def JSObject.replace (o : JSObject) (k v : String) : JSObject :=
  o.map (fun e => if e.1 == k then (k, v) else e)

/-- Adds a property that the object does not have yet: an array index goes
after the smaller array indices, any other key goes last. -/
def JSObject.define (k v : String) : JSObject → JSObject
  | [] => [(k, v)]
  | e :: rest =>
    match arrayIndex k, arrayIndex e.1 with
    | some n, some m => if m < n then e :: JSObject.define k v rest else (k, v) :: e :: rest
    | some _, none => (k, v) :: e :: rest
    | none, _ => e :: JSObject.define k v rest

/-- The assignment `o[k] = v` on an object created by `{}` whose value is a
string.  The name `__proto__` resolves to the accessor inherited from
`Object.prototype`, whose setter ignores a value that is neither an object nor
`null`, so no own property is created; every other inherited member is a
writable data property and the assignment creates or overwrites an own
property. -/
def JSObject.set (o : JSObject) (k v : String) : JSObject :=
  if k == "__proto__" then o
  else if o.has k then o.replace k v
  else JSObject.define k v o

/-- The list `Object.entries(o)`. -/
def JSObject.entries (o : JSObject) : List (String × String) := o

/-- The list `Object.keys(o)`. -/
def JSObject.keys (o : JSObject) : List String := o.map Prod.fst

/-- The position of two distinct property names in the enumeration of an
object: array indices first, by ascending value, then the other names, in the
order of their creation. -/
def enumBefore (a b : String) : Bool :=
  match arrayIndex a, arrayIndex b with
  | some m, some n => decide (m < n)
  | some _, none => true
  | none, some _ => false
  | none, none => true

/-- The lists that are the property list of some object: names pairwise
distinct and in enumeration order. -/
def JSObject.WF (o : JSObject) : Prop :=
  o.keys.Nodup ∧ o.keys.Pairwise (fun a b => enumBefore a b = true)

instance (o : JSObject) : Decidable o.WF :=
  inferInstanceAs (Decidable (_ ∧ _))

/-! ## dashboard.js: conversion between maps and pair sequences -/

/-- The expression `Object.entries(m).map(([key, value]) => ({key, value}))`
of `editPlayer` and `editServer`. -/
def toPairs (m : JSObject) : List Pair :=
  m.entries.map (fun e => { key := e.1, value := e.2 })

/-- One iteration of the loops in `savePlayer` and `saveServer`:
`if (key.trim()) labels[key.trim()] = value`. -/
def toMapStep (acc : JSObject) (p : Pair) : JSObject :=
  if truthy (trim p.key) then acc.set (trim p.key) p.value else acc

/-- The loop `pairs.forEach(({key, value}) => …)` over a fresh `{}`. -/
def toMap (pairs : List Pair) : JSObject :=
  pairs.foldl toMapStep []

/-! ## players.js: reading the key-value editor -/

/-- One iteration of `collectKeyValuePairs`: both inputs are trimmed. -/
def collectStep (acc : JSObject) (row : Pair) : JSObject :=
  let key := trim row.key
  let value := trim row.value
  if truthy key then acc.set key value else acc

/-- The function `collectKeyValuePairs` of `players.js` (also called by
`servers.js`), applied to the rows of the container. -/
def collectKeyValuePairs (rows : List Pair) : JSObject :=
  rows.foldl collectStep []

/-! ## dashboard.js: status badge -/

/-- A value an expression of the status classifier can produce. -/
inductive JSValue where
  | undefined
  | str (s : String)
  | inherited (name : String)
deriving DecidableEq, Repr

/-- The property names every object created by an object literal inherits
from `Object.prototype`; each of them reads as a function or an object. -/
def objectPrototypeMembers : List String :=
  ["constructor", "hasOwnProperty", "isPrototypeOf", "propertyIsEnumerable",
   "toLocaleString", "toString", "valueOf", "__proto__", "__defineGetter__",
   "__defineSetter__", "__lookupGetter__", "__lookupSetter__"]

/-- The property read `o[k]` on an object literal: own properties first, then
the members inherited from `Object.prototype`. -/
def JSObject.read (o : JSObject) (k : String) : JSValue :=
  match o.get k with
  | some v => .str v
  | none => if k ∈ objectPrototypeMembers then .inherited k else .undefined

/-- Truthiness, as tested by the operator `||`. -/
def JSValue.truthy : JSValue → Bool
  | .undefined => false
  | .str s => Stellaroot.truthy s
  | .inherited _ => true

def onlineClass : String :=
  "inline-flex items-center px-2.5 py-0.5 rounded-full text-xs font-medium bg-green-100 text-green-800"

def offlineClass : String :=
  "inline-flex items-center px-2.5 py-0.5 rounded-full text-xs font-medium bg-red-100 text-red-800"

def unknownClass : String :=
  "inline-flex items-center px-2.5 py-0.5 rounded-full text-xs font-medium bg-gray-100 text-gray-800"

/-- The object literal `classes` of `getStatusBadgeClass`. -/
def classes : JSObject :=
  [("online", onlineClass), ("offline", offlineClass), ("unknown", unknownClass)]

/-- The property key `status?.toLowerCase()` turns into: an absent status
short-circuits to `undefined`, whose property key is the string "undefined".
The built-in `String.prototype.toLowerCase` is the parameter `toLowerCase`. -/
def statusKey (toLowerCase : String → String) (status : Option String) : String :=
  match status with
  | none => "undefined"
  | some s => toLowerCase s

/-- The method `getStatusBadgeClass` of `playersData` and of `serversData`
(the two bodies are identical):
`classes[status?.toLowerCase()] || classes.unknown`. -/
def getStatusBadgeClass (toLowerCase : String → String) (status : Option String) : JSValue :=
  let v := classes.read (statusKey toLowerCase status)
  if v.truthy then v else classes.read "unknown"

/-- Lower-casing of the letters A to Z, on which the built-in
`toLowerCase` agrees for strings of ASCII characters. -/
def asciiLower (s : String) : String := ⟨s.data.map Char.toLower⟩

/-! ## dashboard.js: the page around the components -/

/-- One call `showToast(message, type)`. -/
structure Toast where
  message : String
  type : String
deriving DecidableEq, Repr

/-- One call of `fetch`. -/
inductive Request where
  | get (url : String)
  | post (url : String) (labels annotations : JSObject)
deriving DecidableEq, Repr

/-- What a component acts on outside itself: the toasts appended to
`#toast-container`, oldest first, and the requests handed to `fetch`, oldest
first. -/
structure Page where
  toasts : List Toast
  requests : List Request
deriving DecidableEq, Repr

/-- The function `showToast`: appends one toast to the container. -/
def showToast (message type : String) (pg : Page) : Page :=
  { pg with toasts := pg.toasts ++ [⟨message, type⟩] }

/-- The call `fetch(…)`: hands one request to the network. -/
def fetch (r : Request) (pg : Page) : Page :=
  { pg with requests := pg.requests ++ [r] }

/-- How an awaited request ends: with a decoded body, or with a rejection of
`fetch` or of `response.json()`. -/
inductive Settled (α : Type) where
  | fulfilled (value : α)
  | rejected
deriving DecidableEq, Repr

/-- The decoded body of an update response: its `error` member, if any. -/
structure UpdateResult where
  error : Option String
deriving DecidableEq, Repr

/-- The test `if (result.error)`: the member is present and a non-empty
string. -/
def UpdateResult.signalsError (r : UpdateResult) : Bool :=
  match r.error with
  | none => false
  | some e => truthy e

/-! ## dashboard.js: playersData -/

/-- An element of the list `/api/players` returns. -/
structure Player where
  uuid : String
  name : Option String
  status : Option String
  labels : Option JSObject
  annotations : Option JSObject
deriving DecidableEq, Repr

/-- The object `editingPlayer`. -/
structure EditingPlayer where
  uuid : String
  name : String
  labels : List Pair
  annotations : List Pair
deriving DecidableEq, Repr

/-- The component returned by `playersData()`, with the page it acts on. -/
structure PlayersData where
  players : List Player
  loading : Bool
  showEditModal : Bool
  editingPlayer : EditingPlayer
  page : Page
deriving DecidableEq, Repr

namespace playersData

/-- The component as `playersData()` creates it, on an empty page. -/
def init : PlayersData :=
  { players := [], loading := true, showEditModal := false,
    editingPlayer := { uuid := "", name := "", labels := [], annotations := [] },
    page := { toasts := [], requests := [] } }

/-- The method `loadPlayers` up to its first `await`: the part that runs
inside the call. -/
def loadPlayers (s : PlayersData) : PlayersData :=
  { s with loading := true, page := fetch (.get "/api/players") s.page }

/-- The rest of `loadPlayers`, run when the list request has settled: the
assignment, or the `catch` block, and then the `finally` block. -/
def loadPlayers_settled (r : Settled (List Player)) (s : PlayersData) : PlayersData :=
  match r with
  | .fulfilled ps => { s with players := ps, loading := false }
  | .rejected =>
    { s with page := showToast "Failed to load players" "error" s.page, loading := false }

/-- The method `refreshPlayers`: it does not wait for the promise
`loadPlayers()` returns. -/
def refreshPlayers (s : PlayersData) : PlayersData :=
  let s1 := loadPlayers s
  { s1 with page := showToast "Players refreshed" "info" s1.page }

/-- The method `editPlayer`. -/
def editPlayer (player : Player) (s : PlayersData) : PlayersData :=
  { s with
    editingPlayer :=
      { uuid := player.uuid
        name := player.name.getD ""
        labels := toPairs (player.labels.getD [])
        annotations := toPairs (player.annotations.getD []) }
    showEditModal := true }

/-- The objects `labels` and `annotations` of `savePlayer` as they are when
the request body is built. -/
def savePlayer_payload (e : EditingPlayer) : JSObject × JSObject :=
  let labels := toMap e.labels
  let annotations := toMap e.annotations
  let annotations := if truthy e.name then annotations.set "player_name" e.name else annotations
  (labels, annotations)

/-- The method `savePlayer` up to its first `await`. -/
def savePlayer (s : PlayersData) : PlayersData :=
  let body := savePlayer_payload s.editingPlayer
  { s with
    page := fetch (.post ("/api/players/" ++ s.editingPlayer.uuid ++ "/update") body.1 body.2)
      s.page }

/-- The rest of `savePlayer`, run when the update request has settled. -/
def savePlayer_settled (r : Settled UpdateResult) (s : PlayersData) : PlayersData :=
  match r with
  | .fulfilled result =>
    if result.signalsError then
      { s with page := showToast (result.error.getD "") "error" s.page }
    else
      loadPlayers
        { s with page := showToast "Player updated successfully" "success" s.page,
                 showEditModal := false }
  | .rejected => { s with page := showToast "Failed to update player" "error" s.page }

end playersData

/-! ## dashboard.js: serversData -/

/-- An element of the list `/api/servers` returns. -/
structure Server where
  name : String
  status : Option String
  player_count : Option Nat
  labels : Option JSObject
  annotations : Option JSObject
deriving DecidableEq, Repr

/-- The object `editingServer`. -/
structure EditingServer where
  name : String
  labels : List Pair
  annotations : List Pair
deriving DecidableEq, Repr

/-- The component returned by `serversData()`, with the page it acts on. -/
structure ServersData where
  servers : List Server
  loading : Bool
  showEditModal : Bool
  editingServer : EditingServer
  page : Page
deriving DecidableEq, Repr

namespace serversData

/-- The component as `serversData()` creates it, on an empty page. -/
def init : ServersData :=
  { servers := [], loading := true, showEditModal := false,
    editingServer := { name := "", labels := [], annotations := [] },
    page := { toasts := [], requests := [] } }

/-- The method `loadServers` up to its first `await`. -/
def loadServers (s : ServersData) : ServersData :=
  { s with loading := true, page := fetch (.get "/api/servers") s.page }

/-- The rest of `loadServers`, run when the list request has settled. -/
def loadServers_settled (r : Settled (List Server)) (s : ServersData) : ServersData :=
  match r with
  | .fulfilled ss => { s with servers := ss, loading := false }
  | .rejected =>
    { s with page := showToast "Failed to load servers" "error" s.page, loading := false }

/-- The method `refreshServers`. -/
def refreshServers (s : ServersData) : ServersData :=
  let s1 := loadServers s
  { s1 with page := showToast "Servers refreshed" "info" s1.page }

/-- The method `editServer`. -/
def editServer (server : Server) (s : ServersData) : ServersData :=
  { s with
    editingServer :=
      { name := server.name
        labels := toPairs (server.labels.getD [])
        annotations := toPairs (server.annotations.getD []) }
    showEditModal := true }

/-- The objects `labels` and `annotations` of `saveServer` as they are when
the request body is built. -/
def saveServer_payload (e : EditingServer) : JSObject × JSObject :=
  (toMap e.labels, toMap e.annotations)

/-- The method `saveServer` up to its first `await`. -/
def saveServer (s : ServersData) : ServersData :=
  let body := saveServer_payload s.editingServer
  { s with
    page := fetch (.post ("/api/servers/" ++ s.editingServer.name ++ "/update") body.1 body.2)
      s.page }

/-- The rest of `saveServer`, run when the update request has settled. -/
def saveServer_settled (r : Settled UpdateResult) (s : ServersData) : ServersData :=
  match r with
  | .fulfilled result =>
    if result.signalsError then
      { s with page := showToast (result.error.getD "") "error" s.page }
    else
      loadServers
        { s with page := showToast "Server updated successfully" "success" s.page,
                 showEditModal := false }
  | .rejected => { s with page := showToast "Failed to update server" "error" s.page }

end serversData

/-! ## players.js and servers.js: the form-based pages -/

namespace PlayersJs

/-- The objects `labels` and `annotations` of `savePlayer` in `players.js`,
from the value of `#editPlayerName` and the rows of the two editors. -/
def savePlayer_payload (name : String) (labelRows annotationRows : List Pair) :
    JSObject × JSObject :=
  let labels := collectKeyValuePairs labelRows
  let annotations := collectKeyValuePairs annotationRows
  let annotations := if truthy name then annotations.set "player_name" name else annotations
  (labels, annotations)

/-- The page state of `players.js`: the variable `currentPlayers` and the
page. -/
structure State where
  currentPlayers : List Player
  page : Page
deriving DecidableEq, Repr

/-- The function `loadPlayers` of `players.js`: the call issues the request
and returns. -/
def loadPlayers (s : State) : State :=
  { s with page := fetch (.get "/api/players") s.page }

/-- The `then` and `catch` callbacks of `loadPlayers`.  The second `then`
callback assigns `currentPlayers` and then calls `displayPlayers(players)`,
which fills the table body through `getStatusBadge` and `formatLabels`, two
functions that are in none of the three files; `displays players` tells
whether that call returns (`true`) or throws (`false`).  A throw inside the
callback reaches the same `catch` as a rejected request. -/
def loadPlayers_settled (displays : List Player → Bool) (r : Settled (List Player))
    (s : State) : State :=
  match r with
  | .fulfilled ps =>
    let s1 := { s with currentPlayers := ps }
    if displays ps then s1
    else { s1 with page := showToast "Failed to load players" "danger" s1.page }
  | .rejected => { s with page := showToast "Failed to load players" "danger" s.page }

/-- The function `refreshPlayers` of `players.js`. -/
def refreshPlayers (s : State) : State :=
  let s1 := loadPlayers s
  { s1 with page := showToast "Players refreshed" "info" s1.page }

/-- The toasts the callbacks of `loadPlayers` add: one of type `danger` when
the request is rejected or the fetched list fails to display, none
otherwise. -/
def loadToasts (displays : List Player → Bool) : Settled (List Player) → List Toast
  | .fulfilled ps => if displays ps then [] else [⟨"Failed to load players", "danger"⟩]
  | .rejected => [⟨"Failed to load players", "danger"⟩]

end PlayersJs

namespace ServersJs

/-- The objects `labels` and `annotations` of `saveServer` in `servers.js`. -/
def saveServer_payload (labelRows annotationRows : List Pair) : JSObject × JSObject :=
  (collectKeyValuePairs labelRows, collectKeyValuePairs annotationRows)

end ServersJs

/-! ## Reference functions for the statements -/

/-- The value of the last pair of `p` whose trimmed key is `k`, if there is
one. -/
def lastValue (p : List Pair) (k : String) : Option String :=
  (p.reverse.find? (fun x => trim x.key == k)).map Pair.value

/-- The toasts the `catch` block of a list request adds: none when the
request is fulfilled, one toast of the given type when it is rejected. -/
def failureToasts {α : Type} (message type : String) : Settled α → List Toast
  | .fulfilled _ => []
  | .rejected => [⟨message, type⟩]

/-- A player store with an open editor, used to evaluate the methods. -/
def samplePlayers : PlayersData :=
  playersData.editPlayer
    { uuid := "u-1", name := some "Steve", status := some "Online",
      labels := some [("env", "prod")], annotations := none }
    { playersData.init with loading := false }

/-- A server store with an open editor, used to evaluate the methods. -/
def sampleServers : ServersData :=
  serversData.editServer
    { name := "lobby", status := some "online", player_count := some 3,
      labels := some [("env", "prod")], annotations := none }
    { serversData.init with loading := false }

/-! ## Lemmas on plain objects -/

theorem JSObject.get_nil (k : String) : JSObject.get [] k = none := rfl

theorem JSObject.get_cons (e : String × String) (o : JSObject) (k : String) :
    JSObject.get (e :: o) k = if e.1 = k then some e.2 else JSObject.get o k := by
  unfold JSObject.get
  by_cases h : e.1 = k
  · simp [List.find?_cons, h]
  · simp [List.find?_cons, h]

theorem JSObject.has_cons (e : String × String) (o : JSObject) (k : String) :
    JSObject.has (e :: o) k = (e.1 == k || JSObject.has o k) := by
  simp [JSObject.has]

theorem JSObject.get_eq_none_of_has (o : JSObject) (k : String) (h : o.has k = false) :
    o.get k = none := by
  induction o with
  | nil => rfl
  | cons e o ih =>
    rw [JSObject.has_cons] at h
    simp only [Bool.or_eq_false_iff, beq_eq_false_iff_ne, ne_eq] at h
    rw [JSObject.get_cons, if_neg h.1, ih h.2]

theorem JSObject.get_replace (o : JSObject) (k v k' : String) :
    (o.replace k v).get k' = if k' = k then (if o.has k then some v else none) else o.get k' := by
  induction o with
  | nil => simp [JSObject.replace, JSObject.get, JSObject.has]
  | cons e o ih =>
    have hr : JSObject.replace (e :: o) k v
        = (if e.1 == k then (k, v) else e) :: JSObject.replace o k v := rfl
    rw [hr, JSObject.get_cons, ih, JSObject.get_cons, JSObject.has_cons]
    by_cases hek : e.1 = k
    · subst hek
      by_cases hk : k' = e.1
      · simp [hk]
      · have hk2 : ¬ e.1 = k' := fun h => hk h.symm
        simp [hk, hk2]
    · by_cases hk : k' = k
      · subst hk
        simp [hek]
      · simp [hek, hk]

theorem JSObject.get_define (o : JSObject) (k v k' : String) (h : o.has k = false) :
    (JSObject.define k v o).get k' = if k' = k then some v else o.get k' := by
  induction o with
  | nil =>
    by_cases hk : k' = k
    · simp [JSObject.define, JSObject.get_cons, hk]
    · have hk2 : ¬ k = k' := fun h => hk h.symm
      simp [JSObject.define, JSObject.get_cons, JSObject.get_nil, hk, hk2]
  | cons e o ih =>
    rw [JSObject.has_cons] at h
    simp only [Bool.or_eq_false_iff, beq_eq_false_iff_ne, ne_eq] at h
    obtain ⟨hek, ho⟩ := h
    have hfront : JSObject.get ((k, v) :: e :: o) k'
        = if k' = k then some v else JSObject.get (e :: o) k' := by
      rw [JSObject.get_cons]
      by_cases hk : k' = k
      · simp [hk]
      · have hk2 : ¬ k = k' := fun h => hk h.symm
        simp [hk, hk2]
    have hback : JSObject.get (e :: JSObject.define k v o) k'
        = if k' = k then some v else JSObject.get (e :: o) k' := by
      rw [JSObject.get_cons, ih ho, JSObject.get_cons]
      by_cases hk : k' = k
      · subst hk
        simp [hek]
      · simp [hk]
    unfold JSObject.define
    split
    · split
      · exact hback
      · exact hfront
    · exact hfront
    · exact hback

/-- Reading back after `o[k] = v`, for every key but `__proto__`. -/
theorem JSObject.get_set (o : JSObject) (k v k' : String) (hk : k ≠ "__proto__") :
    (o.set k v).get k' = if k' = k then some v else o.get k' := by
  unfold JSObject.set
  have h1 : (k == "__proto__") = false := by simpa using hk
  rw [h1]
  simp only [Bool.false_eq_true, if_false]
  by_cases hh : o.has k = true
  · rw [if_pos hh, JSObject.get_replace, hh]
    simp
  · have hh2 : o.has k = false := by simpa using hh
    rw [if_neg hh, JSObject.get_define o k v k' hh2]

/-- The assignment `o.__proto__ = v` leaves the own properties alone. -/
theorem JSObject.set_proto (o : JSObject) (v : String) : o.set "__proto__" v = o := by
  simp [JSObject.set]

/-! ## Lemmas on `trim` -/

theorem trim_data (s : String) :
    (trim s).data = (s.data.dropWhile isTrimChar).rdropWhile isTrimChar := rfl

theorem dropWhile_rdropWhile_dropWhile (l : List Char) :
    ((l.dropWhile isTrimChar).rdropWhile isTrimChar).dropWhile isTrimChar
      = (l.dropWhile isTrimChar).rdropWhile isTrimChar := by
  rw [List.dropWhile_eq_self_iff]
  intro hl hc
  have hpre := List.rdropWhile_prefix isTrimChar (l.dropWhile isTrimChar)
  have hlen : 0 < (l.dropWhile isTrimChar).length := lt_of_lt_of_le hl hpre.length_le
  have hget := hpre.getElem hl
  apply List.dropWhile_get_zero_not isTrimChar l hlen
  rw [List.get_eq_getElem] at hc ⊢
  rw [← hget]
  exact hc

/-- Trimming twice is trimming once. -/
theorem trim_trim (s : String) : trim (trim s) = trim s := by
  apply String.ext
  rw [trim_data, trim_data, dropWhile_rdropWhile_dropWhile, List.rdropWhile_idempotent]

theorem truthy_iff (s : String) : truthy s = true ↔ s ≠ "" := by
  simp [truthy]

/-! ## Lemmas on the decoding loops -/

theorem toMap_nil : toMap [] = [] := rfl

theorem toMap_concat (p : List Pair) (x : Pair) :
    toMap (p ++ [x]) = toMapStep (toMap p) x := by
  simp [toMap, List.foldl_append]

theorem lastValue_nil (k : String) : lastValue [] k = none := rfl

theorem lastValue_concat (p : List Pair) (x : Pair) (k : String) :
    lastValue (p ++ [x]) k = if trim x.key = k then some x.value else lastValue p k := by
  unfold lastValue
  by_cases h : trim x.key = k
  · simp [List.find?_cons, h]
  · simp [List.find?_cons, h]

/-- The loop of `collectKeyValuePairs` is the loop of `savePlayer` run on the
rows with trimmed values. -/
theorem collectKeyValuePairs_eq (rows : List Pair) :
    collectKeyValuePairs rows
      = toMap (rows.map (fun r => { key := r.key, value := trim r.value })) := by
  unfold collectKeyValuePairs toMap
  rw [List.foldl_map]
  rfl

/-- What the decoding loop stores under a key other than `__proto__`: nothing
under the empty key, otherwise the value of the last pair whose key trims to
it. -/
theorem toMap_get (p : List Pair) (k : String) (hk : k ≠ "__proto__") :
    (toMap p).get k = if k = "" then none else lastValue p k := by
  induction p using List.reverseRecOn with
  | nil => simp [toMap_nil, JSObject.get_nil, lastValue_nil]
  | append_singleton p x ih =>
    rw [toMap_concat, lastValue_concat]
    unfold toMapStep
    by_cases ht : truthy (trim x.key) = true
    · rw [if_pos ht]
      have hne : trim x.key ≠ "" := (truthy_iff _).1 ht
      by_cases hp : trim x.key = "__proto__"
      · rw [hp, JSObject.set_proto, ih]
        have hk2 : ¬ "__proto__" = k := fun h => hk h.symm
        rw [if_neg hk2]
      · rw [JSObject.get_set _ _ _ _ hp, ih]
        by_cases hkx : k = trim x.key
        · subst hkx
          simp [hne]
        · have hkx2 : ¬ trim x.key = k := fun h => hkx h.symm
          simp [hkx, hkx2]
    · rw [if_neg ht, ih]
      have he : trim x.key = "" := by
        by_contra hc
        exact ht ((truthy_iff _).2 hc)
      by_cases hk0 : k = ""
      · simp [hk0]
      · have hk1 : ¬ "" = k := fun h => hk0 h.symm
        simp [hk0, he, hk1]

/-- Nothing is ever stored under the key `__proto__`. -/
theorem toMap_get_proto (p : List Pair) : (toMap p).get "__proto__" = none := by
  induction p using List.reverseRecOn with
  | nil => rfl
  | append_singleton p x ih =>
    rw [toMap_concat]
    unfold toMapStep
    by_cases ht : truthy (trim x.key) = true
    · rw [if_pos ht]
      by_cases hp : trim x.key = "__proto__"
      · rw [hp, JSObject.set_proto, ih]
      · rw [JSObject.get_set _ _ _ _ hp, ih]
        have hp2 : ¬ "__proto__" = trim x.key := fun h => hp h.symm
        simp [hp2]
    · rw [if_neg ht, ih]

/-! ## Keys of an object -/

theorem JSObject.keys_cons (e : String × String) (o : JSObject) :
    JSObject.keys (e :: o) = e.1 :: JSObject.keys o := rfl

theorem JSObject.has_iff_mem_keys (o : JSObject) (k : String) :
    o.has k = true ↔ k ∈ o.keys := by
  induction o with
  | nil => simp [JSObject.has, JSObject.keys]
  | cons e o ih =>
    rw [JSObject.has_cons, JSObject.keys_cons, Bool.or_eq_true, ih, List.mem_cons, beq_iff_eq]
    constructor
    · rintro (h | h)
      · exact Or.inl h.symm
      · exact Or.inr h
    · rintro (h | h)
      · exact Or.inl h.symm
      · exact Or.inr h

theorem JSObject.get_eq_none_iff (o : JSObject) (k : String) :
    o.get k = none ↔ k ∉ o.keys := by
  induction o with
  | nil => simp [JSObject.get_nil, JSObject.keys]
  | cons e o ih =>
    rw [JSObject.get_cons, JSObject.keys_cons, List.mem_cons]
    by_cases h : e.1 = k
    · simp [h]
    · have h2 : ¬ k = e.1 := fun hh => h hh.symm
      simp [h, h2, ih]

theorem JSObject.keys_replace (o : JSObject) (k v : String) :
    (o.replace k v).keys = o.keys := by
  induction o with
  | nil => rfl
  | cons e o ih =>
    have hr : JSObject.replace (e :: o) k v
        = (if e.1 == k then (k, v) else e) :: JSObject.replace o k v := rfl
    rw [hr, JSObject.keys_cons, JSObject.keys_cons, ih]
    by_cases h : e.1 = k
    · simp [h]
    · simp [h]

theorem JSObject.keys_define_perm (o : JSObject) (k v : String) :
    (JSObject.define k v o).keys.Perm (k :: o.keys) := by
  induction o with
  | nil => exact List.Perm.refl _
  | cons e o ih =>
    have hback : (JSObject.keys (e :: JSObject.define k v o)).Perm (k :: JSObject.keys (e :: o)) := by
      rw [JSObject.keys_cons, JSObject.keys_cons]
      exact (List.Perm.cons e.1 ih).trans (List.Perm.swap k e.1 (JSObject.keys o))
    have hfront : (JSObject.keys ((k, v) :: e :: o)).Perm (k :: JSObject.keys (e :: o)) :=
      List.Perm.refl _
    unfold JSObject.define
    split
    · split
      · exact hback
      · exact hfront
    · exact hfront
    · exact hback

/-- An assignment keeps the property names pairwise distinct. -/
theorem JSObject.nodup_keys_set (o : JSObject) (k v : String) (h : o.keys.Nodup) :
    (o.set k v).keys.Nodup := by
  unfold JSObject.set
  split
  · exact h
  · split
    · rw [JSObject.keys_replace]
      exact h
    · rename_i hhas
      have hk : k ∉ o.keys := fun hm => hhas ((JSObject.has_iff_mem_keys o k).2 hm)
      exact (JSObject.keys_define_perm o k v).nodup_iff.2 (List.nodup_cons.2 ⟨hk, h⟩)

theorem lastValue_eq_some (p : List Pair) (k v : String) (h : lastValue p k = some v) :
    ∃ x ∈ p, trim x.key = k ∧ x.value = v := by
  unfold lastValue at h
  rw [Option.map_eq_some'] at h
  obtain ⟨x, hx, hv⟩ := h
  have hmem : x ∈ p := List.mem_reverse.1 (List.mem_of_find?_eq_some hx)
  have hp := List.find?_some hx
  exact ⟨x, hmem, by simpa using hp, hv⟩

/-- Every key the decoding loop stores is the non-empty trim of the key of
some pair, and is not `__proto__`. -/
theorem toMap_mem_keys (p : List Pair) (k : String) (h : k ∈ (toMap p).keys) :
    k ≠ "" ∧ k ≠ "__proto__" ∧ ∃ x ∈ p, trim x.key = k := by
  have hget : (toMap p).get k ≠ none := fun hn => (JSObject.get_eq_none_iff _ _).1 hn h
  have hproto : k ≠ "__proto__" := by
    intro hk
    rw [hk] at hget
    exact hget (toMap_get_proto p)
  rw [toMap_get p k hproto] at hget
  have hne : k ≠ "" := by
    intro hk
    simp [hk] at hget
  rw [if_neg hne] at hget
  obtain ⟨v, hv⟩ := Option.ne_none_iff_exists'.1 hget
  obtain ⟨x, hx, hkx, _⟩ := lastValue_eq_some p k v hv
  exact ⟨hne, hproto, x, hx, hkx⟩

theorem lastValue_of_last (pre post : List Pair) (x : Pair)
    (hpost : ∀ y ∈ post, trim y.key ≠ trim x.key) :
    lastValue (pre ++ x :: post) (trim x.key) = some x.value := by
  unfold lastValue
  have hnone : List.find? (fun y => trim y.key == trim x.key) post.reverse = none := by
    rw [List.find?_eq_none]
    intro y hy
    simpa using hpost y (List.mem_reverse.1 hy)
  simp [List.find?_append, hnone, List.find?_cons]

/-- Reading back what `savePlayer` stores for the last pair of a key. -/
theorem toMap_get_last (pre post : List Pair) (x : Pair)
    (hkey : truthy (trim x.key) = true) (hproto : trim x.key ≠ "__proto__")
    (hpost : ∀ y ∈ post, trim y.key ≠ trim x.key) :
    (toMap (pre ++ x :: post)).get (trim x.key) = some x.value := by
  rw [toMap_get _ _ hproto, if_neg ((truthy_iff _).1 hkey), lastValue_of_last pre post x hpost]

/-! ## Enumeration order -/

theorem isDigit_bounds (c : Char) (h : c.isDigit = true) : 48 ≤ c.toNat ∧ c.toNat ≤ 57 := by
  simp only [Char.isDigit, Bool.and_eq_true, decide_eq_true_eq] at h
  have h1 := h.1
  have h2 := h.2
  rw [ge_iff_le, UInt32.le_def] at h1
  rw [UInt32.le_def] at h2
  exact ⟨h1, h2⟩

theorem char_eq_of_toNat (c d : Char) (h : c.toNat = d.toNat) : c = d := by
  apply Char.ext
  apply UInt32.ext
  exact h

theorem foldl_digits_eq_ofDigits (ds : List Char) :
    ds.foldl (fun a c => 10 * a + (c.toNat - 48)) 0
      = Nat.ofDigits 10 (ds.map (fun c => c.toNat - 48)).reverse := by
  induction ds using List.reverseRecOn with
  | nil => rfl
  | append_singleton ds c ih =>
    rw [List.foldl_append, List.map_append, List.reverse_append]
    simp only [List.foldl_cons, List.foldl_nil, List.map_cons, List.map_nil,
      List.reverse_cons, List.reverse_nil, List.nil_append, List.singleton_append]
    rw [Nat.ofDigits_cons, ih]
    omega

/-- The digits of a canonical numeral other than `0` are the decimal digits
of its value. -/
theorem digits_of_canonical (ds : List Char) (hd : ds.all Char.isDigit = true)
    (hne : ds ≠ []) (hz : ds.head? ≠ some '0') :
    Nat.digits 10 (ds.foldl (fun a c => 10 * a + (c.toNat - 48)) 0)
      = (ds.map (fun c => c.toNat - 48)).reverse := by
  rw [foldl_digits_eq_ofDigits]
  apply Nat.digits_ofDigits 10 (by norm_num)
  · intro l hl
    rw [List.mem_reverse, List.mem_map] at hl
    obtain ⟨c, hc, rfl⟩ := hl
    have := isDigit_bounds c (List.all_eq_true.1 hd c hc)
    omega
  · intro hnil
    cases ds with
    | nil => exact absurd rfl hne
    | cons c rest =>
      have hlast : ((List.map (fun c => c.toNat - 48) (c :: rest)).reverse).getLast hnil
          = c.toNat - 48 := by
        simp
      rw [hlast]
      have hb := isDigit_bounds c (List.all_eq_true.1 hd c (List.mem_cons_self _ _))
      have hc0 : c ≠ '0' := by
        intro h
        apply hz
        rw [h]
        rfl
      intro h0
      apply hc0
      apply char_eq_of_toNat
      have : ('0' : Char).toNat = 48 := by decide
      omega

theorem digitChars_injective (ds es : List Char) (hd : ds.all Char.isDigit = true)
    (he : es.all Char.isDigit = true)
    (h : ds.map (fun c => c.toNat - 48) = es.map (fun c => c.toNat - 48)) : ds = es := by
  induction ds generalizing es with
  | nil =>
    cases es with
    | nil => rfl
    | cons e es => simp at h
  | cons d ds ih =>
    cases es with
    | nil => simp at h
    | cons e es =>
      simp only [List.map_cons, List.cons.injEq] at h
      simp only [List.all_cons, Bool.and_eq_true] at hd he
      have hbd := isDigit_bounds d hd.1
      have hbe := isDigit_bounds e he.1
      have hde : d = e := char_eq_of_toNat d e (by omega)
      rw [hde, ih es hd.2 he.2 h.2]

theorem arrayIndex_eq_some (k : String) (n : Nat) (h : arrayIndex k = some n) :
    k.data ≠ [] ∧ k.data.all Char.isDigit = true ∧
    (k.data = ['0'] ∨ k.data.head? ≠ some '0') ∧
    k.data.foldl (fun a c => 10 * a + (c.toNat - 48)) 0 = n := by
  unfold arrayIndex at h
  simp only at h
  split at h
  · rename_i hc
    simp only [Option.some.injEq] at h
    exact ⟨hc.1, hc.2.1, hc.2.2.1, h⟩
  · exact absurd h (by simp)

/-- Two names that read as the same array index are the same name. -/
theorem arrayIndex_inj (a b : String) (n : Nat) (ha : arrayIndex a = some n)
    (hb : arrayIndex b = some n) : a = b := by
  obtain ⟨ane, ad, ac, av⟩ := arrayIndex_eq_some a n ha
  obtain ⟨bne, bd, bc, bv⟩ := arrayIndex_eq_some b n hb
  apply String.ext
  have key : ∀ (x y : List Char), x ≠ [] → y ≠ [] → x.all Char.isDigit = true →
      y.all Char.isDigit = true → x = ['0'] → (y = ['0'] ∨ y.head? ≠ some '0') →
      x.foldl (fun a c => 10 * a + (c.toNat - 48)) 0
        = y.foldl (fun a c => 10 * a + (c.toNat - 48)) 0 → x = y := by
    intro x y _ yne _ yd hx hy hv
    rcases hy with hy | hy
    · rw [hx, hy]
    · have hdig := digits_of_canonical y yd yne hy
      rw [← hv, hx] at hdig
      have h0 : List.foldl (fun a c => 10 * a + (c.toNat - 48)) 0 ['0'] = 0 := by decide
      rw [h0, Nat.digits_zero] at hdig
      have : y = [] := by
        have h2 := congrArg List.length hdig
        simp at h2
        exact List.length_eq_zero.1 h2.symm
      exact absurd this yne
  rcases ac with ac | ac
  · exact key _ _ ane bne ad bd ac bc (av.trans bv.symm)
  · rcases bc with bc | bc
    · exact (key _ _ bne ane bd ad bc (Or.inr ac) (bv.trans av.symm)).symm
    · have h1 := digits_of_canonical a.data ad ane ac
      have h2 := digits_of_canonical b.data bd bne bc
      rw [av] at h1
      rw [bv] at h2
      have h3 := List.reverse_injective (h1.symm.trans h2)
      exact digitChars_injective _ _ ad bd h3

theorem enumBefore_trans (a b c : String) (hab : enumBefore a b = true)
    (hbc : enumBefore b c = true) : enumBefore a c = true := by
  unfold enumBefore at *
  cases ha : arrayIndex a <;> cases hb : arrayIndex b <;> cases hc : arrayIndex c <;>
    simp [ha, hb, hc] at hab hbc ⊢
  omega

/-- A new property whose place is after all the others goes last. -/
theorem JSObject.define_eq_append (o : JSObject) (k v : String)
    (h : ∀ e ∈ o, enumBefore e.1 k = true) : JSObject.define k v o = o ++ [(k, v)] := by
  induction o with
  | nil => rfl
  | cons e o ih =>
    have he := h e (List.mem_cons_self _ _)
    have ih' := ih (fun x hx => h x (List.mem_cons_of_mem _ hx))
    cases hk : arrayIndex k with
    | none =>
      simp only [JSObject.define, hk]
      rw [ih']
      rfl
    | some n =>
      cases hm : arrayIndex e.1 with
      | none => simp [enumBefore, hk, hm] at he
      | some m =>
        simp [enumBefore, hk, hm] at he
        simp only [JSObject.define, hk, hm, if_pos he]
        rw [ih']
        rfl

theorem JSObject.pairwise_keys_define (o : JSObject) (k v : String)
    (hk : k ∉ o.keys) (h : o.keys.Pairwise (fun a b => enumBefore a b = true)) :
    (JSObject.define k v o).keys.Pairwise (fun a b => enumBefore a b = true) := by
  induction o with
  | nil => simp [JSObject.define, JSObject.keys]
  | cons e o ih =>
    rw [JSObject.keys_cons, List.mem_cons, not_or] at hk
    rw [JSObject.keys_cons, List.pairwise_cons] at h
    have hfront : enumBefore k e.1 = true →
        (JSObject.keys ((k, v) :: e :: o)).Pairwise (fun a b => enumBefore a b = true) := by
      intro hke
      rw [JSObject.keys_cons, JSObject.keys_cons, List.pairwise_cons, List.pairwise_cons]
      refine ⟨?_, h⟩
      intro y hy
      rcases List.mem_cons.1 hy with hy | hy
      · rw [hy]
        exact hke
      · exact enumBefore_trans _ _ _ hke (h.1 y hy)
    have hback : enumBefore e.1 k = true →
        (JSObject.keys (e :: JSObject.define k v o)).Pairwise
          (fun a b => enumBefore a b = true) := by
      intro hek
      rw [JSObject.keys_cons, List.pairwise_cons]
      refine ⟨?_, ih hk.2 h.2⟩
      intro y hy
      rcases List.mem_cons.1 ((JSObject.keys_define_perm o k v).mem_iff.1 hy) with hy | hy
      · rw [hy]
        exact hek
      · exact h.1 y hy
    cases hik : arrayIndex k with
    | none =>
      simp only [JSObject.define, hik]
      apply hback
      cases hm : arrayIndex e.1 <;> simp [enumBefore, hik, hm]
    | some n =>
      cases hm : arrayIndex e.1 with
      | none =>
        simp only [JSObject.define, hik, hm]
        apply hfront
        simp [enumBefore, hik, hm]
      | some m =>
        by_cases hlt : m < n
        · simp only [JSObject.define, hik, hm, if_pos hlt]
          apply hback
          simp [enumBefore, hik, hm, hlt]
        · simp only [JSObject.define, hik, hm, if_neg hlt]
          apply hfront
          have hne : n ≠ m := by
            intro hnm
            apply hk.1
            rw [hnm] at hik
            exact arrayIndex_inj k e.1 m hik hm
          simp only [enumBefore, hik, hm, decide_eq_true_eq]
          omega

/-- An assignment turns the property list of an object into the property
list of an object. -/
theorem JSObject.WF_set (o : JSObject) (k v : String) (h : o.WF) : (o.set k v).WF := by
  refine ⟨JSObject.nodup_keys_set o k v h.1, ?_⟩
  unfold JSObject.set
  split
  · exact h.2
  · split
    · rw [JSObject.keys_replace]
      exact h.2
    · rename_i hhas
      have hk : k ∉ o.keys := fun hm => hhas ((JSObject.has_iff_mem_keys o k).2 hm)
      exact JSObject.pairwise_keys_define o k v hk h.2

theorem toMap_WF (p : List Pair) : (toMap p).WF := by
  induction p using List.reverseRecOn with
  | nil => exact ⟨List.nodup_nil, List.Pairwise.nil⟩
  | append_singleton p x ih =>
    rw [toMap_concat]
    unfold toMapStep
    split
    · exact JSObject.WF_set _ _ _ ih
    · exact ih

/-- Decoding the pairs of an object whose keys are non-empty, trimmed and
other than `__proto__` rebuilds the object. -/
theorem toMap_toPairs_eq (m : JSObject) (hwf : m.WF)
    (hkeys : ∀ k ∈ m.keys, k ≠ "" ∧ trim k = k ∧ k ≠ "__proto__") :
    toMap (toPairs m) = m := by
  induction m using List.reverseRecOn with
  | nil => rfl
  | append_singleton m e ih =>
    have hkeys' : JSObject.keys (m ++ [e]) = JSObject.keys m ++ [e.1] := by
      simp [JSObject.keys]
    obtain ⟨hnd, hpw⟩ := hwf
    rw [hkeys'] at hnd hpw hkeys
    have hnd' : (JSObject.keys m).Nodup := (List.nodup_append.1 hnd).1
    have hnotin : e.1 ∉ JSObject.keys m := by
      intro hm
      exact (List.nodup_append.1 hnd).2.2 hm (List.mem_singleton_self _)
    rw [List.pairwise_append] at hpw
    have hbefore : ∀ x ∈ m, enumBefore x.1 e.1 = true := by
      intro x hx
      exact hpw.2.2 x.1 (List.mem_map_of_mem Prod.fst hx) e.1 (List.mem_singleton_self _)
    have hm : toMap (toPairs m) = m :=
      ih ⟨hnd', hpw.1⟩ (fun k hk => hkeys k (List.mem_append_left _ hk))
    obtain ⟨hne, htrim, hproto⟩ := hkeys e.1 (List.mem_append_right _ (List.mem_singleton_self _))
    have hpairs : toPairs (m ++ [e]) = toPairs m ++ [{ key := e.1, value := e.2 }] := by
      simp [toPairs, JSObject.entries]
    rw [hpairs, toMap_concat, hm]
    unfold toMapStep
    simp only [htrim]
    rw [if_pos ((truthy_iff _).2 hne)]
    unfold JSObject.set
    have h1 : (e.1 == "__proto__") = false := by simpa using hproto
    have h2 : JSObject.has m e.1 = false := by
      cases hh : JSObject.has m e.1 with
      | false => rfl
      | true => exact absurd ((JSObject.has_iff_mem_keys m e.1).1 hh) hnotin
    rw [h1, h2]
    simp only [Bool.false_eq_true, if_false]
    exact JSObject.define_eq_append m e.1 e.2 hbefore

/-! ## The claims on the codec -/

/-- C1, evaluated where the code departs from it: the pair with key
`__proto__` has a non-empty trimmed key and is the last pair with that key, so
the claim puts `__proto__ ↦ x` in the result, but the loop of `savePlayer` and
`saveServer` stores nothing for it; hence the result is not, for every pair
sequence, the last value of every non-empty trimmed key. -/
theorem C1_toMap_loses_proto_key :
    trim "__proto__" = "__proto__" ∧
    lastValue [⟨"__proto__", "x"⟩] "__proto__" = some "x" ∧
    toMap [⟨"__proto__", "x"⟩] = [] ∧
    (toMap [⟨"__proto__", "x"⟩]).get "__proto__" = none ∧
    ¬ (∀ (p : List Pair) (k : String),
        (toMap p).get k = if k = "" then none else lastValue p k) := by
  refine ⟨by decide, by decide, by decide, by decide, ?_⟩
  intro h
  have h1 := h [⟨"__proto__", "x"⟩] "__proto__"
  revert h1
  decide

/-- C2 as stated fails: the object with the single key `" env "` has no empty
key, yet `toPairs` followed by `toMap` gives the object with the single key
`env`, in which `" env "` reads as absent. -/
theorem C2_roundtrip_fails_on_untrimmed_key :
    toMap (toPairs [(" env ", "prod")]) = [("env", "prod")] ∧
    ¬ (∀ m : JSObject, m.WF → (∀ k ∈ m.keys, k ≠ "") → toMap (toPairs m) = m) ∧
    ¬ (∀ m : JSObject, m.WF → (∀ k ∈ m.keys, k ≠ "") →
        ∀ k, (toMap (toPairs m)).get k = m.get k) := by
  refine ⟨by decide, ?_, ?_⟩
  · intro h
    have h1 := h [(" env ", "prod")] (by decide) (by decide)
    revert h1
    decide
  · intro h
    have h1 := h [(" env ", "prod")] (by decide) (by decide) " env "
    revert h1
    decide

/-- C2, amended: for every string-keyed map `m` (a property list with
distinct names in enumeration order) whose keys are non-empty, equal to their
own trim and other than `__proto__`, `toMap (toPairs m)` is `m` itself: same
keys, same values, same order. -/
theorem C2_roundtrip_trimmed_keys (m : JSObject) (hwf : m.WF)
    (hkeys : ∀ k ∈ m.keys, k ≠ "" ∧ trim k = k ∧ k ≠ "__proto__") :
    toMap (toPairs m) = m :=
  toMap_toPairs_eq m hwf hkeys

/-- C2 at the map with the properties `10 ↦ x` and `env ↦ prod`. -/
theorem C2_roundtrip_trimmed_keys_witness :
    JSObject.WF [("10", "x"), ("env", "prod")] ∧
    (∀ k ∈ JSObject.keys [("10", "x"), ("env", "prod")],
      k ≠ "" ∧ trim k = k ∧ k ≠ "__proto__") ∧
    toMap (toPairs [("10", "x"), ("env", "prod")]) = [("10", "x"), ("env", "prod")] :=
  ⟨by decide, by decide,
    C2_roundtrip_trimmed_keys [("10", "x"), ("env", "prod")] (by decide) (by decide)⟩

/-- C3 as stated fails for `collectKeyValuePairs`: the row with key `k` and
value `" v "` is stored as `k ↦ "v"`, not verbatim. -/
theorem C3_collect_trims_values :
    collectKeyValuePairs [⟨"k", " v "⟩] = [("k", "v")] ∧
    ¬ (∀ (pre post : List Pair) (x : Pair), trim x.key ≠ "" →
        (∀ y ∈ post, trim y.key ≠ trim x.key) →
        (collectKeyValuePairs (pre ++ x :: post)).get (trim x.key) = some x.value) := by
  refine ⟨by decide, ?_⟩
  intro h
  have h1 := h [] [] ⟨"k", " v "⟩ (by decide) (by simp)
  revert h1
  decide

/-- C3, amended: for every pair whose trimmed key is non-empty and other than
`__proto__` and that is the last pair with that trimmed key, the loops of
`savePlayer` and `saveServer` in `dashboard.js` store the value verbatim under
the trimmed key, while `collectKeyValuePairs` of `players.js` stores the
trimmed value. -/
theorem C3_values_verbatim_or_trimmed (pre post : List Pair) (x : Pair)
    (hkey : trim x.key ≠ "") (hproto : trim x.key ≠ "__proto__")
    (hpost : ∀ y ∈ post, trim y.key ≠ trim x.key) :
    (toMap (pre ++ x :: post)).get (trim x.key) = some x.value ∧
    (collectKeyValuePairs (pre ++ x :: post)).get (trim x.key) = some (trim x.value) := by
  have ht : truthy (trim x.key) = true := (truthy_iff _).2 hkey
  refine ⟨toMap_get_last pre post x ht hproto hpost, ?_⟩
  rw [collectKeyValuePairs_eq, List.map_append, List.map_cons]
  refine toMap_get_last _ _ ⟨x.key, trim x.value⟩ ht hproto ?_
  intro y hy
  obtain ⟨r, hr, rfl⟩ := List.mem_map.1 hy
  exact hpost r hr

/-- C3 at the pairs `env ↦ old`, `" env " ↦ " prod "`, `tier ↦ 1`. -/
theorem C3_values_verbatim_or_trimmed_witness :
    trim " env " ≠ "" ∧ trim " env " ≠ "__proto__" ∧
    (∀ y ∈ [(⟨"tier", "1"⟩ : Pair)], trim y.key ≠ trim " env ") ∧
    (toMap ([⟨"env", "old"⟩] ++ ⟨" env ", " prod "⟩ :: [⟨"tier", "1"⟩])).get (trim " env ")
        = some " prod " ∧
    (collectKeyValuePairs ([⟨"env", "old"⟩] ++ ⟨" env ", " prod "⟩ :: [⟨"tier", "1"⟩])).get
        (trim " env ") = some (trim " prod ") :=
  ⟨by decide, by decide, by decide,
    C3_values_verbatim_or_trimmed [⟨"env", "old"⟩] [⟨"tier", "1"⟩] ⟨" env ", " prod "⟩
      (by decide) (by decide) (by decide)⟩

/-- C10: every key of `toMap p` is non-empty and equal to its own trim, and
decoding the pairs of `toMap p` again is a no-op:
`toMap (toPairs (toMap p)) = toMap p`. -/
theorem C10_toMap_normal_form (p : List Pair) :
    (∀ k ∈ (toMap p).keys, k ≠ "" ∧ trim k = k) ∧
    toMap (toPairs (toMap p)) = toMap p := by
  have hk : ∀ k ∈ (toMap p).keys, k ≠ "" ∧ trim k = k ∧ k ≠ "__proto__" := by
    intro k hm
    obtain ⟨hne, hproto, x, _, hx⟩ := toMap_mem_keys p k hm
    refine ⟨hne, ?_, hproto⟩
    rw [← hx, trim_trim]
  exact ⟨fun k hm => ⟨(hk k hm).1, (hk k hm).2.1⟩,
    toMap_toPairs_eq (toMap p) (toMap_WF p) hk⟩

/-- C4: `savePlayer` sends exactly one request, whose `labels` are
`toMap` of the buffer's label pairs and whose `annotations` are `toMap` of the
annotation pairs with `player_name` set to the buffer's name when that name is
non-empty (overriding what the pairs gave) and left as they are when it is
empty; the form-based `savePlayer` of `players.js` injects the name in the same
way over its own decoding; `saveServer` sends the two decoded maps as they
are.  With the name `Steve` and no annotation pairs the annotations are
`player_name ↦ Steve` alone. -/
theorem C4_savePlayer_payload (s : PlayersData) (t : ServersData) :
    (playersData.savePlayer s).page.requests
      = s.page.requests ++
        [.post ("/api/players/" ++ s.editingPlayer.uuid ++ "/update")
          (playersData.savePlayer_payload s.editingPlayer).1
          (playersData.savePlayer_payload s.editingPlayer).2] ∧
    (playersData.savePlayer_payload s.editingPlayer).1 = toMap s.editingPlayer.labels ∧
    (playersData.savePlayer_payload s.editingPlayer).2
      = (if s.editingPlayer.name = "" then toMap s.editingPlayer.annotations
         else (toMap s.editingPlayer.annotations).set "player_name" s.editingPlayer.name) ∧
    (∀ k, (playersData.savePlayer_payload s.editingPlayer).2.get k
      = if s.editingPlayer.name ≠ "" ∧ k = "player_name" then some s.editingPlayer.name
        else (toMap s.editingPlayer.annotations).get k) ∧
    (∀ (name : String) (ls as : List Pair) (k : String),
      (PlayersJs.savePlayer_payload name ls as).1 = collectKeyValuePairs ls ∧
      (PlayersJs.savePlayer_payload name ls as).2.get k
        = if name ≠ "" ∧ k = "player_name" then some name
          else (collectKeyValuePairs as).get k) ∧
    (serversData.saveServer t).page.requests
      = t.page.requests ++
        [.post ("/api/servers/" ++ t.editingServer.name ++ "/update")
          (toMap t.editingServer.labels) (toMap t.editingServer.annotations)] ∧
    (∀ ls as : List Pair, ServersJs.saveServer_payload ls as
      = (collectKeyValuePairs ls, collectKeyValuePairs as)) ∧
    (∀ (uuid : String) (ls : List Pair),
      (playersData.savePlayer_payload ⟨uuid, "Steve", ls, []⟩).2
        = [("player_name", "Steve")]) := by
  have hinj : ∀ (name : String) (o : JSObject) (k : String),
      (if truthy name = true then o.set "player_name" name else o).get k
        = if name ≠ "" ∧ k = "player_name" then some name else o.get k := by
    intro name o k
    by_cases hn : name = ""
    · simp [hn, truthy]
    · have ht : truthy name = true := (truthy_iff _).2 hn
      rw [if_pos ht, JSObject.get_set _ _ _ _ (by decide)]
      simp [hn]
  refine ⟨rfl, rfl, ?_, ?_, ?_, rfl, fun _ _ => rfl, fun _ _ => rfl⟩
  · by_cases hn : s.editingPlayer.name = ""
    · simp [playersData.savePlayer_payload, hn, truthy]
    · simp [playersData.savePlayer_payload, hn, truthy]
  · intro k
    exact hinj s.editingPlayer.name (toMap s.editingPlayer.annotations) k
  · intro name ls as k
    exact ⟨rfl, hinj name (collectKeyValuePairs as) k⟩

/-! ## The claims on the stores -/

/-- C5 as stated fails for the empty error string: the response
`{error: ""}` carries an `error` string, but `if (result.error)` takes it for a
success: the toast is the success toast, the editor is closed and the list is
requested again. -/
theorem C5_empty_error_string_is_success :
    (playersData.savePlayer_settled (.fulfilled ⟨some ""⟩)
        (playersData.savePlayer samplePlayers)).page.toasts
      = [⟨"Player updated successfully", "success"⟩] ∧
    samplePlayers.showEditModal = true ∧
    (playersData.savePlayer_settled (.fulfilled ⟨some ""⟩)
        (playersData.savePlayer samplePlayers)).showEditModal = false ∧
    (playersData.savePlayer_settled (.fulfilled ⟨some ""⟩)
        (playersData.savePlayer samplePlayers)).page.requests
      = [.post "/api/players/u-1/update" [("env", "prod")] [("player_name", "Steve")],
         .get "/api/players"] := by
  decide

/-- C5, amended: when the update response carries a non-empty `error` string
`e`, `savePlayer` and `saveServer` add exactly one toast, of type `error` and
with message `e`, leave `showEditModal`, the edit buffer, the list and
`loading` as they were, and issue no request besides the update itself. -/
theorem C5_error_response_keeps_editor (s : PlayersData) (t : ServersData) (e : String)
    (he : e ≠ "") :
    playersData.savePlayer_settled (.fulfilled ⟨some e⟩) (playersData.savePlayer s)
      = { s with page :=
            { toasts := s.page.toasts ++ [⟨e, "error"⟩]
              requests := s.page.requests ++
                [.post ("/api/players/" ++ s.editingPlayer.uuid ++ "/update")
                  (playersData.savePlayer_payload s.editingPlayer).1
                  (playersData.savePlayer_payload s.editingPlayer).2] } } ∧
    serversData.saveServer_settled (.fulfilled ⟨some e⟩) (serversData.saveServer t)
      = { t with page :=
            { toasts := t.page.toasts ++ [⟨e, "error"⟩]
              requests := t.page.requests ++
                [.post ("/api/servers/" ++ t.editingServer.name ++ "/update")
                  (serversData.saveServer_payload t.editingServer).1
                  (serversData.saveServer_payload t.editingServer).2] } } := by
  have hs : UpdateResult.signalsError ⟨some e⟩ = true := by
    simp [UpdateResult.signalsError, truthy, he]
  constructor
  · simp [playersData.savePlayer_settled, hs, playersData.savePlayer, showToast, fetch]
  · simp [serversData.saveServer_settled, hs, serversData.saveServer, showToast, fetch]

/-- C5 at the response `{error: "name too long"}`. -/
theorem C5_error_response_keeps_editor_witness :
    "name too long" ≠ "" ∧
    (playersData.savePlayer_settled (.fulfilled ⟨some "name too long"⟩)
        (playersData.savePlayer samplePlayers)).page.toasts
      = [⟨"name too long", "error"⟩] ∧
    (playersData.savePlayer_settled (.fulfilled ⟨some "name too long"⟩)
        (playersData.savePlayer samplePlayers)).showEditModal = true :=
  ⟨by decide,
    by rw [(C5_error_response_keeps_editor samplePlayers sampleServers "name too long"
      (by decide)).1]; decide,
    by decide⟩

/-- C6: when the update response does not signal an error, `savePlayer` and
`saveServer` add the success toast, set `showEditModal` to false and call the
load method once: after the update request exactly one list request is issued
and `loading` is raised.  The list itself is left as it was and changes only
when that list request is fulfilled. -/
theorem C6_success_closes_and_reloads (s : PlayersData) (t : ServersData)
    (result : UpdateResult) (hok : result.signalsError = false) :
    playersData.savePlayer_settled (.fulfilled result) (playersData.savePlayer s)
      = { s with
          showEditModal := false
          loading := true
          page :=
            { toasts := s.page.toasts ++ [⟨"Player updated successfully", "success"⟩]
              requests := s.page.requests ++
                [.post ("/api/players/" ++ s.editingPlayer.uuid ++ "/update")
                  (playersData.savePlayer_payload s.editingPlayer).1
                  (playersData.savePlayer_payload s.editingPlayer).2,
                 .get "/api/players"] } } ∧
    (playersData.savePlayer_settled (.fulfilled result) (playersData.savePlayer s)).players
      = s.players ∧
    (∀ ps, (playersData.loadPlayers_settled (.fulfilled ps)
        (playersData.savePlayer_settled (.fulfilled result)
          (playersData.savePlayer s))).players = ps) ∧
    serversData.saveServer_settled (.fulfilled result) (serversData.saveServer t)
      = { t with
          showEditModal := false
          loading := true
          page :=
            { toasts := t.page.toasts ++ [⟨"Server updated successfully", "success"⟩]
              requests := t.page.requests ++
                [.post ("/api/servers/" ++ t.editingServer.name ++ "/update")
                  (serversData.saveServer_payload t.editingServer).1
                  (serversData.saveServer_payload t.editingServer).2,
                 .get "/api/servers"] } } ∧
    (serversData.saveServer_settled (.fulfilled result) (serversData.saveServer t)).servers
      = t.servers ∧
    (∀ ss, (serversData.loadServers_settled (.fulfilled ss)
        (serversData.saveServer_settled (.fulfilled result)
          (serversData.saveServer t))).servers = ss) := by
  refine ⟨?_, ?_, ?_, ?_, ?_, ?_⟩
  · simp [playersData.savePlayer_settled, hok, playersData.savePlayer,
      playersData.loadPlayers, showToast, fetch]
  · simp [playersData.savePlayer_settled, hok, playersData.savePlayer,
      playersData.loadPlayers]
  · intro ps
    rfl
  · simp [serversData.saveServer_settled, hok, serversData.saveServer,
      serversData.loadServers, showToast, fetch]
  · simp [serversData.saveServer_settled, hok, serversData.saveServer,
      serversData.loadServers]
  · intro ss
    rfl

/-- C6 at a response without an `error` member. -/
theorem C6_success_closes_and_reloads_witness :
    UpdateResult.signalsError ⟨none⟩ = false ∧
    (playersData.savePlayer_settled (.fulfilled ⟨none⟩)
        (playersData.savePlayer samplePlayers)).showEditModal = false ∧
    (playersData.savePlayer_settled (.fulfilled ⟨none⟩)
        (playersData.savePlayer samplePlayers)).players = samplePlayers.players :=
  ⟨by decide, by decide,
    (C6_success_closes_and_reloads samplePlayers sampleServers ⟨none⟩ (by decide)).2.1⟩

/-- C7: when the list request is rejected, `loadPlayers` and `loadServers`
finish with `loading` false, the list as it was before the call and exactly
one more toast, of type `error`, reading `Failed to load players` or
`Failed to load servers`; when the request is fulfilled they finish with
`loading` false as well. -/
theorem C7_load_failure (s : PlayersData) (t : ServersData) :
    playersData.loadPlayers_settled .rejected (playersData.loadPlayers s)
      = { s with
          loading := false
          page :=
            { toasts := s.page.toasts ++ [⟨"Failed to load players", "error"⟩]
              requests := s.page.requests ++ [.get "/api/players"] } } ∧
    (∀ ps, (playersData.loadPlayers_settled (.fulfilled ps)
        (playersData.loadPlayers s)).loading = false) ∧
    serversData.loadServers_settled .rejected (serversData.loadServers t)
      = { t with
          loading := false
          page :=
            { toasts := t.page.toasts ++ [⟨"Failed to load servers", "error"⟩]
              requests := t.page.requests ++ [.get "/api/servers"] } } ∧
    (∀ ss, (serversData.loadServers_settled (.fulfilled ss)
        (serversData.loadServers t)).loading = false) :=
  ⟨rfl, fun _ => rfl, rfl, fun _ => rfl⟩

/-- C8, evaluated where the code departs from it: the status `Constructor`
lower-cases to neither `online` nor `offline`, yet `getStatusBadgeClass`
returns the member `constructor` inherited from `Object.prototype` and not the
unknown class; the same happens for the status `__proto__`. -/
theorem C8_inherited_member_is_not_unknown :
    asciiLower "Constructor" = "constructor" ∧
    getStatusBadgeClass asciiLower (some "Constructor") = .inherited "constructor" ∧
    getStatusBadgeClass asciiLower (some "Constructor") ≠ .str unknownClass ∧
    getStatusBadgeClass asciiLower (some "__proto__") = .inherited "__proto__" := by
  decide

/-- The classification on every status whose key is not a member of
`Object.prototype`: the online class when the status lower-cases to `online`,
the offline class when it lower-cases to `offline`, the unknown class
otherwise, also for an absent status. -/
theorem getStatusBadgeClass_of_not_inherited (toLowerCase : String → String)
    (status : Option String)
    (h : statusKey toLowerCase status ∉ objectPrototypeMembers) :
    getStatusBadgeClass toLowerCase status
      = if statusKey toLowerCase status = "online" then .str onlineClass
        else if statusKey toLowerCase status = "offline" then .str offlineClass
        else .str unknownClass := by
  unfold getStatusBadgeClass
  generalize statusKey toLowerCase status = k at h ⊢
  by_cases h1 : k = "online"
  · subst h1
    decide
  · by_cases h2 : k = "offline"
    · subst h2
      decide
    · by_cases h3 : k = "unknown"
      · subst h3
        decide
      · have hget : classes.get k = none := by
          rw [JSObject.get_eq_none_iff]
          intro hm
          have : k = "online" ∨ k = "offline" ∨ k = "unknown" := by
            simpa [classes, JSObject.keys] using hm
          rcases this with h | h | h
          · exact h1 h
          · exact h2 h
          · exact h3 h
        have hread : classes.read k = .undefined := by
          unfold JSObject.read
          rw [hget]
          simp [h]
        rw [hread, if_neg h1, if_neg h2]
        decide

/-- C9 as stated fails: when the list request is rejected the toasts of
`refreshPlayers` are the info toast followed by the error toast, not the
toasts of `loadPlayers` followed by the info toast. -/
theorem C9_info_toast_comes_first :
    (playersData.loadPlayers_settled .rejected
        (playersData.refreshPlayers samplePlayers)).page.toasts
      = [⟨"Players refreshed", "info"⟩, ⟨"Failed to load players", "error"⟩] ∧
    (playersData.loadPlayers_settled .rejected
        (playersData.refreshPlayers samplePlayers)).page.toasts
      ≠ (playersData.loadPlayers_settled .rejected
          (playersData.loadPlayers samplePlayers)).page.toasts
        ++ [⟨"Players refreshed", "info"⟩] := by
  decide

/-- C9, amended: `refreshPlayers` and `refreshServers` issue the list
request, raise `loading` and add exactly one info toast (`Players refreshed`,
`Servers refreshed`) at once, while the request is pending.  For every store
state and every outcome of the list request the state they reach is the one
the load method alone reaches (same list, same `loading`, same requests)
except for the toasts, which are the info toast first, followed by the toasts
of the load method: none on success, the one `Failed to load …` error on
failure.  The same holds for `refreshPlayers` of `players.js`, whose load adds
a toast of type `danger` when the request is rejected or the list fails to
display. -/
theorem C9_refresh_is_info_then_load (s : PlayersData) (t : ServersData)
    (u : PlayersJs.State) (displays : List Player → Bool)
    (r : Settled (List Player)) (q : Settled (List Server)) :
    playersData.refreshPlayers s
      = { s with
          loading := true
          page :=
            { toasts := s.page.toasts ++ [⟨"Players refreshed", "info"⟩]
              requests := s.page.requests ++ [.get "/api/players"] } } ∧
    (playersData.loadPlayers_settled r (playersData.loadPlayers s)).page
      = { toasts := s.page.toasts ++ failureToasts "Failed to load players" "error" r
          requests := s.page.requests ++ [.get "/api/players"] } ∧
    playersData.loadPlayers_settled r (playersData.refreshPlayers s)
      = { playersData.loadPlayers_settled r (playersData.loadPlayers s) with
          page :=
            { toasts := s.page.toasts ++ ⟨"Players refreshed", "info"⟩ ::
                failureToasts "Failed to load players" "error" r
              requests := s.page.requests ++ [.get "/api/players"] } } ∧
    serversData.refreshServers t
      = { t with
          loading := true
          page :=
            { toasts := t.page.toasts ++ [⟨"Servers refreshed", "info"⟩]
              requests := t.page.requests ++ [.get "/api/servers"] } } ∧
    (serversData.loadServers_settled q (serversData.loadServers t)).page
      = { toasts := t.page.toasts ++ failureToasts "Failed to load servers" "error" q
          requests := t.page.requests ++ [.get "/api/servers"] } ∧
    serversData.loadServers_settled q (serversData.refreshServers t)
      = { serversData.loadServers_settled q (serversData.loadServers t) with
          page :=
            { toasts := t.page.toasts ++ ⟨"Servers refreshed", "info"⟩ ::
                failureToasts "Failed to load servers" "error" q
              requests := t.page.requests ++ [.get "/api/servers"] } } ∧
    PlayersJs.refreshPlayers u
      = { u with
          page :=
            { toasts := u.page.toasts ++ [⟨"Players refreshed", "info"⟩]
              requests := u.page.requests ++ [.get "/api/players"] } } ∧
    (PlayersJs.loadPlayers_settled displays r (PlayersJs.loadPlayers u)).page
      = { toasts := u.page.toasts ++ PlayersJs.loadToasts displays r
          requests := u.page.requests ++ [.get "/api/players"] } ∧
    PlayersJs.loadPlayers_settled displays r (PlayersJs.refreshPlayers u)
      = { PlayersJs.loadPlayers_settled displays r (PlayersJs.loadPlayers u) with
          page :=
            { toasts := u.page.toasts ++ ⟨"Players refreshed", "info"⟩ ::
                PlayersJs.loadToasts displays r
              requests := u.page.requests ++ [.get "/api/players"] } } := by
  refine ⟨rfl, ?_, ?_, rfl, ?_, ?_, rfl, ?_, ?_⟩
  · cases r <;>
      simp [playersData.loadPlayers_settled, playersData.loadPlayers, showToast, fetch,
        failureToasts]
  · cases r <;>
      simp [playersData.loadPlayers_settled, playersData.refreshPlayers,
        playersData.loadPlayers, showToast, fetch, failureToasts]
  · cases q <;>
      simp [serversData.loadServers_settled, serversData.loadServers, showToast, fetch,
        failureToasts]
  · cases q <;>
      simp [serversData.loadServers_settled, serversData.refreshServers,
        serversData.loadServers, showToast, fetch, failureToasts]
  · cases r with
    | rejected =>
      simp [PlayersJs.loadPlayers_settled, PlayersJs.loadPlayers, showToast, fetch,
        PlayersJs.loadToasts]
    | fulfilled ps =>
      cases hd : displays ps <;>
        simp [PlayersJs.loadPlayers_settled, PlayersJs.loadPlayers, showToast, fetch,
          PlayersJs.loadToasts, hd]
  · cases r with
    | rejected =>
      simp [PlayersJs.loadPlayers_settled, PlayersJs.refreshPlayers, PlayersJs.loadPlayers,
        showToast, fetch, PlayersJs.loadToasts]
    | fulfilled ps =>
      cases hd : displays ps <;>
        simp [PlayersJs.loadPlayers_settled, PlayersJs.refreshPlayers,
          PlayersJs.loadPlayers, showToast, fetch, PlayersJs.loadToasts, hd]

end Stellaroot
